import Mathlib

/-!
Verification of the ticket-classification core of the cs-agent-workflow-engine
repository (src/agent_classifier.py and its collaborator src/app.py).

Strings are embedded as `List Char`.  Python dictionaries with a fixed key set
are embedded as structures with `Option` fields (a `none` field is an absent
key).  A raised Python exception is an `Except.error`; the external
text-generation call is embedded as an oracle value of type `ApiOutcome`
supplied to the function.
-/

namespace CsAgent

/-- The ASCII whitespace characters removed by Python's str.strip. -/
def pyWs (c : Char) : Bool :=
  c == ' ' || c == '\t' || c == '\n' || c == '\r' || c == '\x0b' || c == '\x0c'

/-- Python `s.strip()`: drop leading and trailing whitespace. -/
def pyStrip (s : List Char) : List Char :=
  ((s.dropWhile pyWs).reverse.dropWhile pyWs).reverse

/-- Split a list at the first (leftmost) occurrence of `sep`: returns the part
before the occurrence and the part after it, or `none` when `sep` does not
occur. -/
def splitFirstAt (sep : List Char) : List Char → Option (List Char × List Char)
  | [] => if sep.isEmpty then some ([], []) else none
  | c :: rest =>
    if sep.isPrefixOf (c :: rest) then some ([], (c :: rest).drop sep.length)
    else
      match splitFirstAt sep rest with
      | some (pre, post) => some (c :: pre, post)
      | none => none

/-- Python `sep in s` (substring membership). -/
def containsSub (sep s : List Char) : Bool :=
  (splitFirstAt sep s).isSome

/-- The part of `s` before the first occurrence of `sep` (all of `s` when
`sep` does not occur): Python `s.split(sep)[0]`. -/
def cutAtFirst (sep s : List Char) : List Char :=
  match splitFirstAt sep s with
  | some (pre, _) => pre
  | none => s

/-- The part of `s` after the first occurrence of `sep` (all of `s` when `sep`
does not occur; that degenerate case is never used). -/
def tailAfterFirst (sep s : List Char) : List Char :=
  match splitFirstAt sep s with
  | some (_, post) => post
  | none => s

theorem splitFirstAt_some_length (sep : List Char) (hsep : sep ≠ []) :
    ∀ s pre post, splitFirstAt sep s = some (pre, post) →
      pre.length + sep.length + post.length = s.length := by
  intro s
  induction s with
  | nil =>
    intro pre post h
    simp [splitFirstAt, List.isEmpty_iff, hsep] at h
  | cons c rest ih =>
    intro pre post h
    rw [splitFirstAt] at h
    by_cases hp : sep.isPrefixOf (c :: rest)
    · simp only [hp, if_pos] at h
      obtain ⟨rfl, rfl⟩ := Prod.mk.injEq .. ▸ Option.some.injEq .. ▸ h
      have hle : sep.length ≤ (c :: rest).length :=
        (List.isPrefixOf_iff_prefix.mp hp).length_le
      simp only [List.length_drop, List.length_nil]
      omega
    · simp only [hp, if_neg, Bool.false_eq_true, not_false_iff] at h
      cases hrec : splitFirstAt sep rest with
      | none => rw [hrec] at h; exact absurd h (by simp)
      | some pq =>
        obtain ⟨p, q⟩ := pq
        rw [hrec] at h
        obtain ⟨rfl, rfl⟩ := Prod.mk.injEq .. ▸ Option.some.injEq .. ▸ h
        have := ih p q hrec
        simp only [List.length_cons]
        omega

/-- The recursion of Python `s.split(sep)`, made structural with a fuel
argument; `pySplit` supplies fuel that never runs out for a nonempty
separator (`pySplitFuel_irrel`). -/
def pySplitFuel (sep : List Char) : Nat → List Char → List (List Char)
  | 0, s => [s]
  | fuel + 1, s =>
    match splitFirstAt sep s with
    | none => [s]
    | some (pre, post) => pre :: pySplitFuel sep fuel post

/-- Python `s.split(sep)` for a nonempty separator: the chunks between the
non-overlapping occurrences of `sep`, scanning left to right. -/
def pySplit (sep : List Char) (s : List Char) : List (List Char) :=
  pySplitFuel sep (s.length + 1) s

/-- The fuel of `pySplit` is irrelevant as soon as it exceeds the input
length, so `pySplit` computes the full split. -/
theorem pySplitFuel_irrel {sep : List Char} (hsep : sep ≠ []) :
    ∀ f g s, s.length ≤ f → s.length ≤ g →
      pySplitFuel sep f s = pySplitFuel sep g s := by
  intro f
  induction f with
  | zero =>
    intro g s hf hg
    have hs : s = [] := List.length_eq_zero.mp (Nat.le_zero.mp hf)
    subst hs
    cases g with
    | zero => rfl
    | succ g' =>
      have : splitFirstAt sep [] = none := by
        simp [splitFirstAt, List.isEmpty_iff, hsep]
      simp [pySplitFuel, this]
  | succ f' ih =>
    intro g s hf hg
    cases g with
    | zero =>
      have hs : s = [] := List.length_eq_zero.mp (Nat.le_zero.mp hg)
      subst hs
      have : splitFirstAt sep [] = none := by
        simp [splitFirstAt, List.isEmpty_iff, hsep]
      simp [pySplitFuel, this]
    | succ g' =>
      cases h : splitFirstAt sep s with
      | none => simp [pySplitFuel, h]
      | some pq =>
        obtain ⟨pre, post⟩ := pq
        have hlen := splitFirstAt_some_length sep hsep s pre post h
        have hpos : 0 < sep.length := List.length_pos.mpr hsep
        simp only [pySplitFuel, h]
        rw [ih g' post (by omega) (by omega)]

/-- The characters of the JSON-marked markdown fence marker. -/
def fenceJson : List Char := ("```json").data

/-- The characters of the generic markdown fence marker. -/
def fence : List Char := ("```").data

/-- Lines 101-107 of src/agent_classifier.py: strip the response text, then
remove a markdown fence wrapper when one is present, preferring a
JSON-marked fence; the result is the text handed to the JSON parser. -/
def extractResponseText (text : List Char) : List Char :=
  let rt := pyStrip text
  if containsSub fenceJson rt then
    pyStrip ((pySplit fence ((pySplit fenceJson rt).getD 1 [])).getD 0 [])
  else if containsSub fence rt then
    pyStrip ((pySplit fence ((pySplit fence rt).getD 1 [])).getD 0 [])
  else rt

/-- Modelled from the spec: "extract only the content between the first such
fence pair" read as: the content from the end of the first occurrence of the
opening marker up to the next generic fence marker (to the end of the text
when no closing marker follows), stripped; the generic branch and the
no-fence branch read the same way. -/
def extractPerSpec (text : List Char) : List Char :=
  let rt := pyStrip text
  if containsSub fenceJson rt then
    pyStrip (cutAtFirst fence (tailAfterFirst fenceJson rt))
  else if containsSub fence rt then
    pyStrip (cutAtFirst fence (tailAfterFirst fence rt))
  else rt

/-- The fixed instruction block returned by `AgentClassifier._build_system_prompt`
(lines 30-72 of src/agent_classifier.py). -/
def systemPromptLines : List String :=
  [ "You are a customer support ticket classification agent for FlowTask, a project management SaaS platform."
  , ""
  , "CLASSIFICATION RULES (Based on Phase 2 Optimization):"
  , ""
  , "1. CUSTOMER TIER TRIGGERS:"
  , "   - Enterprise customers: ALWAYS escalate (regardless of issue)"
  , "   - Pro customers: Evaluate based on other criteria"
  , ""
  , "2. SECURITY TRIGGERS (ALWAYS escalate):"
  , "   - Login/password issues with urgency"
  , "   - Account access problems"
  , "   - Any credential-related requests"
  , ""
  , "3. RISK TRIGGERS (ALWAYS escalate):"
  , "   - Churn threats: mentions of \"cancel\", \"switching\", \"competitor\""
  , "   - Legal language: \"lawyer\", \"lawsuit\", \"legal action\""
  , "   - Angry/hostile sentiment"
  , "   - Financial disputes or refund requests"
  , ""
  , "4. TECHNICAL TRIGGERS (ALWAYS escalate):"
  , "   - Bugs affecting operations for >24 hours"
  , "   - Data loss or export failures"
  , "   - Performance degradation"
  , ""
  , "5. CAN RESOLVE AUTONOMOUSLY:"
  , "   - Simple billing inquiries (invoice requests)"
  , "   - Feature requests (log and acknowledge, don\x27t escalate)"
  , "   - How-to questions with clear answers"
  , "   - Known system behaviors"
  , ""
  , "OUTPUT FORMAT:"
  , "Respond with ONLY valid JSON in this exact format:"
  , "\x7b"
  , "  \"category\": \"BILLING|TECHNICAL|ACCOUNT|FEATURE_REQUEST|CHURN\","
  , "  \"priority\": \"LOW|MEDIUM|HIGH|URGENT\","
  , "  \"should_escalate\": true or false,"
  , "  \"escalate_to\": \"SUPPORT_TEAM|ACCOUNT_MANAGER|ENGINEERING|BILLING\" or null,"
  , "  \"reasoning\": \"Brief explanation of classification decision\","
  , "  \"suggested_tags\": [\"tag1\", \"tag2\", \"tag3\"],"
  , "  \"confidence\": 0.0 to 1.0"
  , "\x7d"
  , ""
  , "CRITICAL: Output ONLY the JSON object. No markdown formatting, no other text before or after." ]

/-- `AgentClassifier._build_system_prompt()` as one character list. -/
def systemPrompt : List Char := (String.intercalate "\n" systemPromptLines).data

/-- A ticket dictionary: each field is a key that may be absent. -/
structure Ticket where
  id : Option (List Char)
  subject : Option (List Char)
  description : Option (List Char)
  customer_email : Option (List Char)
  customer_tier : Option (List Char)
  created_at : Option (List Char)
deriving DecidableEq, Repr

/-- A raised Python exception (only the kinds this code can raise). -/
inductive PyErr where
  | keyError (key : List Char)
  | valueError (msg : List Char)
deriving DecidableEq, Repr

def keyId : List Char := ("id").data
def keySubject : List Char := ("subject").data
def keyDescription : List Char := ("description").data
def keyCustomerEmail : List Char := ("customer_email").data
def keyCustomerTier : List Char := ("customer_tier").data
def keyCreatedAt : List Char := ("created_at").data

/-- Python `ticket[key]`: the value, or a raised KeyError when absent. -/
def getKey (v : Option (List Char)) (key : List Char) : Except PyErr (List Char) :=
  match v with
  | some x => .ok x
  | none => .error (.keyError key)

def promptPart0 : List Char :=
  ("\n\nNow classify this customer support ticket:\n\nTicket ID: ").data
def promptPart1 : List Char := ("\nSubject: ").data
def promptPart2 : List Char := ("\nDescription: ").data
def promptPart3 : List Char := ("\nCustomer Email: ").data
def promptPart4 : List Char := ("\nCustomer Tier: ").data
def promptPart5 : List Char := ("\nCreated: ").data
def promptPart6 : List Char := ("\n\nProvide classification in JSON format.").data

/-- Lines 85-96 of src/agent_classifier.py: the f-string building `full_prompt`.
The ticket fields are read in source order; a missing key raises KeyError
at this point, before the external call. -/
def buildFullPrompt (t : Ticket) : Except PyErr (List Char) := do
  let i ← getKey t.id keyId
  let s ← getKey t.subject keySubject
  let d ← getKey t.description keyDescription
  let em ← getKey t.customer_email keyCustomerEmail
  let tr ← getKey t.customer_tier keyCustomerTier
  let ca ← getKey t.created_at keyCreatedAt
  pure (systemPrompt ++ promptPart0 ++ i ++ promptPart1 ++ s ++ promptPart2 ++ d
    ++ promptPart3 ++ em ++ promptPart4 ++ tr ++ promptPart5 ++ ca ++ promptPart6)

/-- A JSON value as produced by the JSON decoder.  A number is kept as an
exact decimal `m / 10 ^ e`, so that no floating-point rounding enters the
model; an object is the ordered list of its members. -/
inductive JsonVal where
  | jnull
  | jbool (b : Bool)
  | jnum (m : Int) (e : Nat)
  | jstr (s : List Char)
  | jarr (elems : List JsonVal)
  | jobj (members : List (List Char × JsonVal))

def errExpectingValue : List Char := ("Expecting value").data
def errUnterminated : List Char := ("Unterminated string").data
def errBadEscape : List Char := ("Invalid escape").data
def errControlChar : List Char := ("Invalid control character").data
def errExpectingFrac : List Char := ("Expecting digit after decimal point").data
def errExpectingDelim : List Char := ("Expecting delimiter").data
def errExpectingColon : List Char := ("Expecting colon delimiter").data
def errExpectingKey : List Char := ("Expecting property name").data
def errDepth : List Char := ("Nesting too deep").data
def errExtraData : List Char := ("Extra data").data

/-- The whitespace characters the JSON decoder skips between tokens. -/
def jsonWs (c : Char) : Bool :=
  c == ' ' || c == '\t' || c == '\n' || c == '\r'

def skipWs : List Char → List Char
  | [] => []
  | c :: rest => if jsonWs c then skipWs rest else c :: rest

/-- The short string escapes the decoder understands (the model leaves out
numeric escapes): each pair maps the character after the backslash to the
character it denotes. -/
def escPairs : List (Char × Char) :=
  [('"', '"'), ('\\', '\\'), ('/', '/'), ('n', '\n'), ('t', '\t'),
   ('r', '\r'), ('b', '\x08'), ('f', '\x0c')]

/-- Decode one short string escape. -/
def unescapeChar (c : Char) : Option Char :=
  (escPairs.find? (fun p => p.1 == c)).map Prod.snd

/-- Parse a JSON string body after the opening quote, returning the decoded
characters and the input after the closing quote.  A raw control character
is rejected, as in the decoder's strict mode. -/
def parseStrBody : List Char → Except (List Char) (List Char × List Char)
  | [] => .error errUnterminated
  | c :: rest =>
    if c == '"' then .ok ([], rest)
    else if c == '\\' then
      match rest with
      | [] => .error errUnterminated
      | e :: rest2 =>
        match unescapeChar e with
        | some c2 =>
          match parseStrBody rest2 with
          | .ok (s, r) => .ok (c2 :: s, r)
          | .error m => .error m
        | none => .error errBadEscape
    else if c.toNat < 32 then .error errControlChar
    else
      match parseStrBody rest with
      | .ok (s, r) => .ok (c :: s, r)
      | .error m => .error m

def digitVal (c : Char) : Nat := c.toNat - 48

/-- The longest digit run at the head of the input, and the rest. -/
def takeDigits : List Char → (List Char × List Char)
  | [] => ([], [])
  | c :: rest =>
    if c.isDigit then
      let (ds, r) := takeDigits rest
      (c :: ds, r)
    else ([], c :: rest)

def digitsToNat (ds : List Char) : Nat :=
  ds.foldl (fun a c => a * 10 + digitVal c) 0

/-- Parse a JSON number (optional minus sign, digits, optional fraction;
the model leaves out exponents) as an exact decimal. -/
def parseNum (s : List Char) : Except (List Char) (JsonVal × List Char) :=
  let neg : Bool := decide (s.head? = some '-')
  let s1 := if neg then s.drop 1 else s
  let (ids, r1) := takeDigits s1
  if ids.isEmpty then .error errExpectingValue
  else if decide (r1.head? = some '.') then
    let (fds, r3) := takeDigits (r1.drop 1)
    if fds.isEmpty then .error errExpectingFrac
    else
      let n : Nat := digitsToNat (ids ++ fds)
      .ok (.jnum (if neg then -(n : Int) else (n : Int)) fds.length, r3)
  else
    let n : Nat := digitsToNat ids
    .ok (.jnum (if neg then -(n : Int) else (n : Int)) 0, r1)

/-- Match a literal suffix such as "rue" after the leading character of a
keyword token. -/
def stripLit (lit : List Char) (s : List Char) : Option (List Char) :=
  if lit.isPrefixOf s then some (s.drop lit.length) else none

def litRue : List Char := ("rue").data
def litAlse : List Char := ("alse").data
def litUll : List Char := ("ull").data

mutual

/-- Parse one JSON value; `fuel` bounds the recursion depth and is chosen
large enough for the whole input in `jsonParse`. -/
def parseVal : Nat → List Char → Except (List Char) (JsonVal × List Char)
  | 0, _ => .error errDepth
  | fuel + 1, s =>
    match skipWs s with
    | [] => .error errExpectingValue
    | c :: rest =>
      if c == '"' then
        match parseStrBody rest with
        | .ok (str, r) => .ok (.jstr str, r)
        | .error m => .error m
      else if c == '[' then
        match skipWs rest with
        | ']' :: r => .ok (.jarr [], r)
        | r2 =>
          match parseElems fuel r2 with
          | .ok (xs, r) => .ok (.jarr xs, r)
          | .error m => .error m
      else if c == '\x7b' then
        match skipWs rest with
        | '\x7d' :: r => .ok (.jobj [], r)
        | r2 =>
          match parseMembers fuel r2 with
          | .ok (ms, r) => .ok (.jobj ms, r)
          | .error m => .error m
      else if c == 't' then
        match stripLit litRue rest with
        | some r => .ok (.jbool true, r)
        | none => .error errExpectingValue
      else if c == 'f' then
        match stripLit litAlse rest with
        | some r => .ok (.jbool false, r)
        | none => .error errExpectingValue
      else if c == 'n' then
        match stripLit litUll rest with
        | some r => .ok (.jnull, r)
        | none => .error errExpectingValue
      else if c == '-' || c.isDigit then parseNum (c :: rest)
      else .error errExpectingValue

/-- Parse a nonempty comma-separated element list up to and including the
closing square bracket. -/
def parseElems : Nat → List Char → Except (List Char) (List JsonVal × List Char)
  | 0, _ => .error errDepth
  | fuel + 1, s =>
    match parseVal fuel s with
    | .error m => .error m
    | .ok (v, r1) =>
      match skipWs r1 with
      | ',' :: r2 =>
        match parseElems fuel r2 with
        | .ok (xs, r3) => .ok (v :: xs, r3)
        | .error m => .error m
      | ']' :: r2 => .ok ([v], r2)
      | _ => .error errExpectingDelim

/-- Parse a nonempty comma-separated member list up to and including the
closing curly bracket. -/
def parseMembers : Nat → List Char →
    Except (List Char) (List (List Char × JsonVal) × List Char)
  | 0, _ => .error errDepth
  | fuel + 1, s =>
    match skipWs s with
    | '"' :: rest =>
      match parseStrBody rest with
      | .error m => .error m
      | .ok (key, r1) =>
        match skipWs r1 with
        | ':' :: r2 =>
          match parseVal fuel r2 with
          | .error m => .error m
          | .ok (v, r3) =>
            match skipWs r3 with
            | ',' :: r4 =>
              match parseMembers fuel r4 with
              | .ok (ms, r5) => .ok ((key, v) :: ms, r5)
              | .error m => .error m
            | '\x7d' :: r4 => .ok ([(key, v)], r4)
            | _ => .error errExpectingDelim
        | _ => .error errExpectingColon
    | _ => .error errExpectingKey

end

/-- The model of `json.loads`: parse one value and require that only
whitespace follows it. -/
def jsonParse (s : List Char) : Except (List Char) JsonVal :=
  match parseVal (2 * s.length + 2) s with
  | .error m => .error m
  | .ok (v, r) =>
    match skipWs r with
    | [] => .ok v
    | _ => .error errExtraData

/-- The oracle value describing what the one external call did: returned a
text, or raised (network error, missing attribute, anything else). -/
inductive ApiOutcome where
  | ok (text : List Char)
  | exn (msg : List Char)

/-- The result dictionary built by `classify_ticket` (lines 113-131): a
`none` field is an absent key. -/
structure ClassifyResult where
  success : Bool
  ticket_id : List Char
  classification : Option JsonVal
  error : Option (List Char)
  raw_response : Option (List Char)

def msgParseErr : List Char := ("Failed to parse JSON response: ").data
def msgApiErr : List Char := ("API error: ").data

/-- `AgentClassifier.classify_ticket` (lines 74-131), given the outcome of
the external call; the second component records whether the external call
was reached. -/
def classifyTicketRun (t : Ticket) (outcome : ApiOutcome) :
    Except PyErr ClassifyResult × Bool :=
  match buildFullPrompt t with
  | .error e => (.error e, false)
  | .ok _fullPrompt =>
    match t.id with
    | none => (.error (.keyError keyId), true)
    | some i =>
      match outcome with
      | .exn m =>
        (.ok { success := false, ticket_id := i, classification := none,
               error := some (msgApiErr ++ m), raw_response := none }, true)
      | .ok text =>
        let extracted := extractResponseText text
        match jsonParse extracted with
        | .ok v =>
          (.ok { success := true, ticket_id := i, classification := some v,
                 error := none, raw_response := none }, true)
        | .error m =>
          (.ok { success := false, ticket_id := i, classification := none,
                 error := some (msgParseErr ++ m),
                 raw_response := some extracted }, true)

/-- `classify_ticket` as the caller sees it. -/
def classifyTicket (t : Ticket) (outcome : ApiOutcome) :
    Except PyErr ClassifyResult :=
  (classifyTicketRun t outcome).1

/-- Line 162 of src/agent_classifier.py: `sum(1 for r in results if r['success'])`. -/
def countSucc (results : List ClassifyResult) : Nat :=
  results.foldl (fun a r => if r.success then a + 1 else a) 0

/-- What `process_batch` produces: the result list it returns, and the two
numbers printed in its summary line. -/
structure BatchOutput where
  results : List ClassifyResult
  reportedSuccess : Nat
  reportedTotal : Nat

/-- The loop of `process_batch` (lines 150-159): the per-ticket progress
line reads `ticket['id']`, then the ticket is classified and the result
appended; an uncaught exception aborts the loop. -/
def processBatchGo (classify : Ticket → Except PyErr ClassifyResult) :
    List Ticket → Except PyErr (List ClassifyResult)
  | [] => .ok []
  | t :: ts =>
    match getKey t.id keyId with
    | .error e => .error e
    | .ok _ =>
      match classify t with
      | .error e => .error e
      | .ok r =>
        match processBatchGo classify ts with
        | .ok rest => .ok (r :: rest)
        | .error e => .error e

/-- `AgentClassifier.process_batch` (lines 133-167), abstracted over the
per-ticket classification function. -/
def processBatch (classify : Ticket → Except PyErr ClassifyResult)
    (tickets : List Ticket) : Except PyErr BatchOutput :=
  match processBatchGo classify tickets with
  | .error e => .error e
  | .ok results => .ok ⟨results, countSucc results, tickets.length⟩

/-- The configured classifier object built by `AgentClassifier.__init__`. -/
structure AgentClassifier where
  apiKey : List Char
  modelName : List Char
deriving DecidableEq, Repr

def geminiKeyName : List Char := ("GEMINI_API_KEY").data
def geminiModelName : List Char := ("gemini-2.0-flash-exp").data
def msgNoKey : List Char := ("GEMINI_API_KEY not found in .env file").data

/-- `AgentClassifier.__init__` (lines 16-23): read the credential from the
environment; `if not api_key` raises ValueError when the variable is absent
or empty. -/
def agentClassifierInit (env : List Char → Option (List Char)) :
    Except PyErr AgentClassifier :=
  match env geminiKeyName with
  | none => .error (.valueError msgNoKey)
  | some k =>
    if k.isEmpty then .error (.valueError msgNoKey)
    else .ok { apiKey := k, modelName := geminiModelName }

/-- What the /classify route of src/app.py answers. -/
inductive RouteResult where
  | notInitialized
  | classified (r : Except PyErr ClassifyResult)

/-- Startup of src/app.py (lines 8-13): a failed construction leaves the
module-level classifier as None. -/
def appStartClassifier (env : List Char → Option (List Char)) :
    Option AgentClassifier :=
  match agentClassifierInit env with
  | .ok c => some c
  | .error _ => none

/-- The /classify route of src/app.py (lines 22-33). -/
def classifyRoute (c : Option AgentClassifier) (t : Ticket) (o : ApiOutcome) :
    RouteResult :=
  match c with
  | none => .notInitialized
  | some _ => .classified (classifyTicket t o)

/-- Modelled from the spec, amended: as `extractPerSpec`, except that in the
JSON branch the closing fence is searched only in front of the next
`fenceJson` occurrence (the non-overlapping left-to-right scan of the
source's split). -/
def extractAmended (text : List Char) : List Char :=
  let rt := pyStrip text
  if containsSub fenceJson rt then
    pyStrip (cutAtFirst fence (cutAtFirst fenceJson (tailAfterFirst fenceJson rt)))
  else if containsSub fence rt then
    pyStrip (cutAtFirst fence (tailAfterFirst fence rt))
  else rt

theorem splitFirstAt_decomp {sep : List Char} :
    ∀ {s pre post : List Char}, splitFirstAt sep s = some (pre, post) →
      s = pre ++ sep ++ post := by
  intro s
  induction s with
  | nil =>
    intro pre post h
    by_cases hsep : sep.isEmpty
    · simp only [splitFirstAt, hsep, if_pos, Option.some.injEq, Prod.mk.injEq] at h
      obtain ⟨rfl, rfl⟩ := h
      simp [List.isEmpty_iff.mp hsep]
    · simp [splitFirstAt, hsep] at h
  | cons c rest ih =>
    intro pre post h
    rw [splitFirstAt] at h
    by_cases hp : sep.isPrefixOf (c :: rest)
    · simp only [hp, if_pos, Option.some.injEq, Prod.mk.injEq] at h
      obtain ⟨rfl, rfl⟩ := h
      obtain ⟨t, ht⟩ := List.isPrefixOf_iff_prefix.mp hp
      have hd : (c :: rest).drop sep.length = t := by
        rw [← ht, List.drop_left]
      rw [hd, List.nil_append, ← ht]
    · simp only [hp, if_neg, Bool.false_eq_true, not_false_iff] at h
      cases hrec : splitFirstAt sep rest with
      | none => rw [hrec] at h; exact absurd h (by simp)
      | some pq =>
        obtain ⟨p, q⟩ := pq
        rw [hrec] at h
        simp only [Option.some.injEq, Prod.mk.injEq] at h
        obtain ⟨rfl, rfl⟩ := h
        have := ih hrec
        simp [this]

theorem splitFirstAt_pre_none {sep : List Char} (hsep : sep ≠ []) :
    ∀ {s pre post : List Char}, splitFirstAt sep s = some (pre, post) →
      splitFirstAt sep pre = none := by
  intro s
  induction s with
  | nil =>
    intro pre post h
    simp [splitFirstAt, List.isEmpty_iff, hsep] at h
  | cons c rest ih =>
    intro pre post h
    rw [splitFirstAt] at h
    by_cases hp : sep.isPrefixOf (c :: rest)
    · simp only [hp, if_pos, Option.some.injEq, Prod.mk.injEq] at h
      obtain ⟨rfl, rfl⟩ := h
      simp [splitFirstAt, List.isEmpty_iff, hsep]
    · simp only [hp, if_neg, Bool.false_eq_true, not_false_iff] at h
      cases hrec : splitFirstAt sep rest with
      | none => rw [hrec] at h; exact absurd h (by simp)
      | some pq =>
        obtain ⟨p, q⟩ := pq
        rw [hrec] at h
        simp only [Option.some.injEq, Prod.mk.injEq] at h
        obtain ⟨rfl, rfl⟩ := h
        have hdec := splitFirstAt_decomp hrec
        have hnp : ¬ sep.isPrefixOf (c :: p) := by
          intro hpp
          apply hp
          refine List.isPrefixOf_iff_prefix.mpr ?_
          have h1 : sep <+: (c :: p) := List.isPrefixOf_iff_prefix.mp hpp
          have h2 : (c :: p) <+: (c :: rest) := by
            refine ⟨sep ++ q, ?_⟩
            simp [hdec]
          exact h1.trans h2
        rw [splitFirstAt]
        simp [hnp, ih hrec]

theorem cutAtFirst_eq_self {sep x : List Char} (h : splitFirstAt sep x = none) :
    cutAtFirst sep x = x := by
  simp [cutAtFirst, h]

theorem splitFirstAt_cutAtFirst {sep x : List Char} (hsep : sep ≠ []) :
    splitFirstAt sep (cutAtFirst sep x) = none := by
  cases h : splitFirstAt sep x with
  | none => simpa [cutAtFirst, h] using h
  | some pq =>
    obtain ⟨pre, post⟩ := pq
    simpa [cutAtFirst, h] using splitFirstAt_pre_none hsep h

theorem pySplit_getD0 {sep x : List Char} (hsep : sep ≠ []) :
    (pySplit sep x).getD 0 [] = cutAtFirst sep x := by
  rw [pySplit]
  cases h : splitFirstAt sep x with
  | none => simp [pySplitFuel, h, cutAtFirst]
  | some pq =>
    obtain ⟨pre, post⟩ := pq
    simp [pySplitFuel, h, cutAtFirst]

theorem pySplit_getD1 {sep s pre post : List Char} (hsep : sep ≠ [])
    (h : splitFirstAt sep s = some (pre, post)) :
    (pySplit sep s).getD 1 [] = cutAtFirst sep post := by
  have hlen := splitFirstAt_some_length sep hsep s pre post h
  have hpos : 0 < sep.length := List.length_pos.mpr hsep
  rw [pySplit]
  simp only [pySplitFuel, h]
  show (pySplitFuel sep s.length post).getD 0 [] = cutAtFirst sep post
  rw [pySplitFuel_irrel hsep s.length (post.length + 1) post (by omega) (by omega)]
  exact pySplit_getD0 hsep

theorem fenceJson_ne_nil : fenceJson ≠ [] := by decide

theorem fence_ne_nil : fence ≠ [] := by decide

/-- The concrete response text separating the source's extraction from the
spec's fence-pair description: stray backticks right in front of a second
JSON fence marker. -/
def cexC1 : List Char := ("a```jsonx`````jsonb").data

/-- C1 counterexample: on `a```jsonx`````jsonb` the source keeps the two
stray backticks (it cuts the closing fence only inside the chunk before the
next JSON marker) and hands `x``` `` to the parser, while the content between
the first JSON-marked fence pair (opening marker at index 1, next generic
fence at index 9) is `x`; so the extraction is not the content between the
first JSON-marked fence pair. -/
theorem C1_counterexample :
    extractResponseText cexC1 = ("x``").data ∧
    extractPerSpec cexC1 = ("x").data ∧
    extractResponseText cexC1 ≠ extractPerSpec cexC1 := by
  refine ⟨by decide, by decide, by decide⟩

/-- C1 (amended): for every response text, the text handed to the JSON
parser is: after trimming surrounding whitespace — the stripped content
between the first JSON-marked fence marker and the first following generic
fence occurring before the next JSON-marked fence marker (to the end of the
trimmed text if neither follows) when a JSON-marked fence marker is present;
otherwise the stripped content between the first and second generic fence
markers (to the end if no second fence) when a generic fence is present;
otherwise the full trimmed text unchanged.  Content after the honored fence
pair is discarded. -/
theorem C1_extraction_amended (text : List Char) :
    extractResponseText text = extractAmended text := by
  simp only [extractResponseText, extractAmended]
  by_cases h1 : containsSub fenceJson (pyStrip text)
  · simp only [h1, if_true]
    obtain ⟨pq, hs⟩ := Option.isSome_iff_exists.mp h1
    obtain ⟨pre, post⟩ := pq
    rw [pySplit_getD1 fenceJson_ne_nil hs, pySplit_getD0 fence_ne_nil]
    simp [tailAfterFirst, hs]
  · simp only [h1, Bool.false_eq_true, if_false]
    by_cases h2 : containsSub fence (pyStrip text)
    · simp only [h2, if_true]
      obtain ⟨pq, hs⟩ := Option.isSome_iff_exists.mp h2
      obtain ⟨pre, post⟩ := pq
      rw [pySplit_getD1 fence_ne_nil hs, pySplit_getD0 fence_ne_nil]
      rw [cutAtFirst_eq_self (splitFirstAt_cutAtFirst fence_ne_nil)]
      simp [tailAfterFirst, hs]
    · simp only [h2, Bool.false_eq_true, if_false]

/-- A ticket in which every required field is present. -/
def mkTicket (i s d em tr ca : List Char) : Ticket :=
  ⟨some i, some s, some d, some em, some tr, some ca⟩

/-- Whether every required field is present. -/
def hasAllFields (t : Ticket) : Bool :=
  t.id.isSome && t.subject.isSome && t.description.isSome &&
  t.customer_email.isSome && t.customer_tier.isSome && t.created_at.isSome

/-- C4: for every ticket with all required fields present and every failure
of the external invocation or extraction other than a JSON parse failure,
classify_ticket returns (does not raise) a Failure result whose error is the
generic "API error" string wrapping the underlying error text, and whose
raw response field is absent. -/
theorem C4_api_error_failure (i s d em tr ca msg : List Char) :
    classifyTicket (mkTicket i s d em tr ca) (.exn msg) =
      .ok { success := false, ticket_id := i, classification := none,
            error := some (msgApiErr ++ msg), raw_response := none } := rfl

/-- C5: for every ticket missing at least one required field,
classify_ticket raises a KeyError (a lookup error) rather than returning a
typed Failure result, and the external call is never attempted (the second
component of `classifyTicketRun` is false). -/
theorem C5_missing_field_raises (t : Ticket) (o : ApiOutcome)
    (h : ¬ hasAllFields t = true) :
    ∃ key, classifyTicketRun t o = (.error (.keyError key), false) := by
  obtain ⟨i, s, d, em, tr, ca⟩ := t
  cases i with
  | none => exact ⟨keyId, rfl⟩
  | some i =>
    cases s with
    | none => exact ⟨keySubject, rfl⟩
    | some s =>
      cases d with
      | none => exact ⟨keyDescription, rfl⟩
      | some d =>
        cases em with
        | none => exact ⟨keyCustomerEmail, rfl⟩
        | some em =>
          cases tr with
          | none => exact ⟨keyCustomerTier, rfl⟩
          | some tr =>
            cases ca with
            | none => exact ⟨keyCreatedAt, rfl⟩
            | some ca => simp [hasAllFields] at h

/-- C5 witness: a concrete ticket missing its subject field raises a
KeyError with the external call never attempted. -/
theorem C5_missing_field_raises_witness :
    ∃ key, classifyTicketRun
        ⟨some (("T1").data), none, some (("d").data), some (("e@x.io").data),
         some (("pro").data), some (("2025-01-01").data)⟩ (.exn [])
      = (.error (.keyError key), false) :=
  C5_missing_field_raises _ _ (by decide)

/-- C6: for every response text whose extracted text parses as JSON,
classify_ticket returns a Success result wrapping exactly the ticket id and
the parsed value verbatim, whatever that value is: no schema validation, no
clamping of confidence, no enum checking happens before success. -/
theorem C6_success_verbatim (i s d em tr ca text : List Char) (v : JsonVal)
    (h : jsonParse (extractResponseText text) = .ok v) :
    classifyTicket (mkTicket i s d em tr ca) (.ok text) =
      .ok { success := true, ticket_id := i, classification := some v,
            error := none, raw_response := none } := by
  simp [classifyTicket, classifyTicketRun, mkTicket, buildFullPrompt, getKey, h,
    bind, Except.bind, pure, Except.pure]

/-- C6 witness: an out-of-range confidence value of 5 is wrapped verbatim
in a Success result, with no clamping. -/
theorem C6_success_verbatim_witness :
    classifyTicket
        (mkTicket (("T1").data) (("s").data) (("d").data) (("e@x.io").data)
          (("pro").data) (("2025-01-01").data))
        (.ok (("\x7b\"confidence\": 5\x7d").data)) =
      .ok { success := true, ticket_id := ("T1").data,
            classification := some (.jobj [((("confidence").data), .jnum 5 0)]),
            error := none, raw_response := none } :=
  C6_success_verbatim _ _ _ _ _ _ _ _ (by rfl)

/-- C9: a response whose extracted text parses as a JSON value that is not
an object — a bare number, a string, an array — still yields a Success
result wrapping that value as the classification. -/
theorem C9_non_object_success (i s d em tr ca text : List Char) (v : JsonVal)
    (hv : ∀ ms, v ≠ .jobj ms)
    (h : jsonParse (extractResponseText text) = .ok v) :
    classifyTicket (mkTicket i s d em tr ca) (.ok text) =
      .ok { success := true, ticket_id := i, classification := some v,
            error := none, raw_response := none } := by
  simp [classifyTicket, classifyTicketRun, mkTicket, buildFullPrompt, getKey, h,
    bind, Except.bind, pure, Except.pure]

/-- C9 witness: the bare number response "42" is not an object yet is
accepted as a successful classification. -/
theorem C9_non_object_success_witness :
    classifyTicket
        (mkTicket (("T1").data) (("s").data) (("d").data) (("e@x.io").data)
          (("pro").data) (("2025-01-01").data))
        (.ok (("42").data)) =
      .ok { success := true, ticket_id := ("T1").data,
            classification := some (.jnum 42 0),
            error := none, raw_response := none } :=
  C9_non_object_success _ _ _ _ _ _ _ _
    (fun ms hcon => JsonVal.noConfusion hcon) (by rfl)

/-- C10: for every ticket whose id key is present, every result that
classify_ticket returns (rather than raises) carries that id as ticket_id,
carries a classification exactly when its success flag is true, and carries
an error string exactly when its success flag is false. -/
theorem C10_result_invariant (t : Ticket) (i : List Char) (o : ApiOutcome)
    (hid : t.id = some i) (r : ClassifyResult)
    (h : classifyTicket t o = .ok r) :
    r.ticket_id = i ∧
    (r.classification.isSome ↔ r.success = true) ∧
    (r.error.isSome ↔ r.success = false) := by
  unfold classifyTicket classifyTicketRun at h
  cases hb : buildFullPrompt t with
  | error e => rw [hb] at h; exact absurd h (by simp)
  | ok p =>
    rw [hb, hid] at h
    cases o with
    | exn m =>
      simp only at h
      obtain rfl := Except.ok.injEq .. ▸ h
      simp
    | ok text =>
      simp only at h
      cases hp : jsonParse (extractResponseText text) with
      | ok v =>
        rw [hp] at h
        simp only at h
        obtain rfl := Except.ok.injEq .. ▸ h
        simp
      | error m =>
        rw [hp] at h
        simp only at h
        obtain rfl := Except.ok.injEq .. ▸ h
        simp

/-- The concrete result the classifier returns for ticket T9 and the
non-JSON response "no json". -/
def c10res : ClassifyResult :=
  { success := false, ticket_id := ("T9").data, classification := none,
    error := some (msgParseErr ++ errExpectingValue),
    raw_response := some (("no json").data) }

/-- C10 witness: the invariant at a concrete ticket and a concrete failing
response. -/
theorem C10_result_invariant_witness :
    c10res.ticket_id = ("T9").data ∧
    (c10res.classification.isSome ↔ c10res.success = true) ∧
    (c10res.error.isSome ↔ c10res.success = false) :=
  C10_result_invariant
    (mkTicket (("T9").data) (("s").data) (("d").data) (("e@x.io").data)
      (("pro").data) (("2025-01-01").data))
    (("T9").data) (.ok (("no json").data)) rfl c10res (by rfl)

theorem countSucc_eq_countP (rs : List ClassifyResult) :
    countSucc rs = rs.countP (fun r => r.success) := by
  have haux : ∀ (l : List ClassifyResult) (a : Nat),
      l.foldl (fun a r => if r.success then a + 1 else a) a =
        a + l.countP (fun r => r.success) := by
    intro l
    induction l with
    | nil => intro a; simp
    | cons r rs ih =>
      intro a
      simp only [List.foldl_cons, List.countP_cons]
      rw [ih]
      by_cases hr : r.success <;> simp [hr] <;> omega
  simpa [countSucc] using haux rs 0

/-- With every required field present, classify_ticket always returns a
result (line 98's try block recovers every exception of the call, the
extraction and the parse), and the external call is reached. -/
theorem classifyRun_total (t : Ticket) (o : ApiOutcome)
    (h : hasAllFields t = true) :
    ∃ r, classifyTicketRun t o = (.ok r, true) := by
  obtain ⟨i, s, d, em, tr, ca⟩ := t
  simp only [hasAllFields, Bool.and_eq_true, Option.isSome_iff_exists] at h
  obtain ⟨⟨⟨⟨⟨⟨iv, hi⟩, ⟨sv, hs⟩⟩, ⟨dv, hd⟩⟩, ⟨emv, hem⟩⟩, ⟨trv, htr⟩⟩, ⟨cav, hca⟩⟩ := h
  subst hi hs hd hem htr hca
  cases o with
  | exn m => exact ⟨_, rfl⟩
  | ok text =>
    cases hp : jsonParse (extractResponseText text) with
    | ok v =>
      refine ⟨{ success := true, ticket_id := iv, classification := some v,
                error := none, raw_response := none }, ?_⟩
      simp [classifyTicketRun, buildFullPrompt, getKey, hp,
        bind, Except.bind, pure, Except.pure]
    | error m =>
      refine ⟨{ success := false, ticket_id := iv, classification := none,
                error := some (msgParseErr ++ m),
                raw_response := some (extractResponseText text) }, ?_⟩
      simp [classifyTicketRun, buildFullPrompt, getKey, hp,
        bind, Except.bind, pure, Except.pure]

theorem processBatchGo_map (oracle : Ticket → ApiOutcome) :
    ∀ (tickets : List Ticket), (∀ t ∈ tickets, hasAllFields t = true) →
      ∃ results : List ClassifyResult,
        processBatchGo (fun t => classifyTicket t (oracle t)) tickets = .ok results ∧
        results.map Except.ok = tickets.map (fun t => classifyTicket t (oracle t)) ∧
        results.length = tickets.length := by
  intro tickets
  induction tickets with
  | nil => intro h; exact ⟨[], rfl, rfl, rfl⟩
  | cons t ts ih =>
    intro h
    have ht : hasAllFields t = true := h t (List.mem_cons_self ..)
    obtain ⟨r, hr⟩ := classifyRun_total t (oracle t) ht
    obtain ⟨rs, hgo, hmap, hlen⟩ := ih (fun u hu => h u (List.mem_cons_of_mem _ hu))
    have hct : classifyTicket t (oracle t) = .ok r := by
      simp [classifyTicket, hr]
    have hid : ∃ iv, t.id = some iv := by
      simp only [hasAllFields, Bool.and_eq_true, Option.isSome_iff_exists] at ht
      exact ht.1.1.1.1.1
    obtain ⟨iv, hiv⟩ := hid
    refine ⟨r :: rs, ?_, ?_, ?_⟩
    · simp [processBatchGo, getKey, hiv, hct, hgo]
    · simp [hmap, hct]
    · simp [hlen]

/-- C2: for every sequence of tickets with the required fields and every
assignment of external outcomes, process_batch returns one result per
ticket in input order (each result is exactly that ticket's classify_ticket
result, so classify_ticket is applied once per ticket), no per-ticket
failure aborts the batch, and the reported success count is the number of
success results; the empty sequence (an instance) yields the empty result
list and a 0-of-0 report. -/
theorem C2_process_batch (oracle : Ticket → ApiOutcome) (tickets : List Ticket)
    (h : ∀ t ∈ tickets, hasAllFields t = true) :
    ∃ results : List ClassifyResult,
      processBatch (fun t => classifyTicket t (oracle t)) tickets =
        .ok { results := results,
              reportedSuccess := results.countP (fun r => r.success),
              reportedTotal := tickets.length } ∧
      results.map Except.ok = tickets.map (fun t => classifyTicket t (oracle t)) ∧
      results.length = tickets.length := by
  obtain ⟨results, hgo, hmap, hlen⟩ := processBatchGo_map oracle tickets h
  exact ⟨results, by simp [processBatch, hgo, countSucc_eq_countP], hmap, hlen⟩

def wTickets : List Ticket :=
  [ mkTicket (("T1").data) (("s1").data) (("d1").data) (("a@x.io").data)
      (("pro").data) (("2025-01-01").data)
  , mkTicket (("T2").data) (("s2").data) (("d2").data) (("b@x.io").data)
      (("enterprise").data) (("2025-01-02").data) ]

def wOracle : Ticket → ApiOutcome :=
  fun t => if t.id = some (("T1").data)
    then .ok (("\x7b\x7d").data) else .ok (("oops").data)

/-- C2 witness: a concrete two-ticket batch with one success and one parse
failure. -/
theorem C2_process_batch_witness :
    ∃ results : List ClassifyResult,
      processBatch (fun t => classifyTicket t (wOracle t)) wTickets =
        .ok { results := results,
              reportedSuccess := results.countP (fun r => r.success),
              reportedTotal := wTickets.length } ∧
      results.map Except.ok = wTickets.map (fun t => classifyTicket t (wOracle t)) ∧
      results.length = wTickets.length :=
  C2_process_batch wOracle wTickets (by decide)

def envEmptyCred : List Char → Option (List Char) :=
  fun k => if k = geminiKeyName then some [] else none

/-- C7 counterexample: with GEMINI_API_KEY present in the environment but
bound to the empty string, the credential is present yet construction fails
with the configuration error, contradicting "if the credential is present,
construction succeeds without raising a configuration error". -/
theorem C7_counterexample :
    envEmptyCred geminiKeyName = some [] ∧
    agentClassifierInit envEmptyCred = .error (.valueError msgNoKey) := by
  refine ⟨by simp [envEmptyCred], ?_⟩
  simp [agentClassifierInit, envEmptyCred]

/-- C7 (amended): construction fails with the configuration error exactly
when the credential is absent from the environment or present but empty
(Python's falsy test on the string); with a nonempty credential present it
succeeds; and after a failed construction the web layer's classify route
only answers "not initialized", so no classification is possible. -/
theorem C7_init_amended (env : List Char → Option (List Char)) :
    (agentClassifierInit env = .error (.valueError msgNoKey) ↔
      (env geminiKeyName = none ∨ env geminiKeyName = some [])) ∧
    (∀ k, env geminiKeyName = some k → k ≠ [] →
      agentClassifierInit env = .ok { apiKey := k, modelName := geminiModelName }) ∧
    (∀ e, agentClassifierInit env = .error e →
      ∀ t o, classifyRoute (appStartClassifier env) t o = .notInitialized) := by
  refine ⟨?_, ?_, ?_⟩
  · cases he : env geminiKeyName with
    | none => simp [agentClassifierInit, he]
    | some k =>
      by_cases hk : k.isEmpty
      · have hnil : k = [] := by
          cases k with
          | nil => rfl
          | cons a l => exact absurd hk (by simp [List.isEmpty])
        subst hnil
        simp [agentClassifierInit, he]
      · have hk2 : k ≠ [] := by
          intro hnil; subst hnil; exact hk rfl
        simp [agentClassifierInit, he, hk, hk2]
  · intro k hk hne
    have hne2 : k.isEmpty = false := by
      cases k with
      | nil => exact absurd rfl hne
      | cons a l => rfl
    simp [agentClassifierInit, hk, hne2]
  · intro e hee t o
    have hstart : appStartClassifier env = none := by
      simp [appStartClassifier, hee]
    simp [classifyRoute, hstart]

def envGoodCred : List Char → Option (List Char) :=
  fun k => if k = geminiKeyName then some (("key-1").data) else none

/-- C7 amended witness: a present, nonempty credential constructs the
classifier. -/
theorem C7_init_amended_witness :
    agentClassifierInit envGoodCred =
      .ok { apiKey := ("key-1").data, modelName := geminiModelName } :=
  (C7_init_amended envGoodCred).2.1 (("key-1").data) (by simp [envGoodCred]) (by decide)

/-- Modelled from the spec: the claim's "raw, unstripped extraction text" —
the content the extraction selects, before any whitespace stripping: the
content between the honored fence markers, or the whole raw response text
when no fence is present. -/
def rawUnstrippedExtraction (text : List Char) : List Char :=
  if containsSub fenceJson text then
    cutAtFirst fence (cutAtFirst fenceJson (tailAfterFirst fenceJson text))
  else if containsSub fence text then
    cutAtFirst fence (tailAfterFirst fence text)
  else text

/-- C3 counterexample: for the non-JSON response " x " the Failure result
stores raw_response = "x" — the stripped text that was handed to the parser
— and not the raw, unstripped text " x ". -/
theorem C3_counterexample :
    classifyTicket
        (mkTicket (("T3").data) (("s").data) (("d").data) (("e@x.io").data)
          (("pro").data) (("2025-01-01").data)) (.ok ((" x ").data)) =
      .ok { success := false, ticket_id := ("T3").data, classification := none,
            error := some (msgParseErr ++ errExpectingValue),
            raw_response := some (("x").data) } ∧
    rawUnstrippedExtraction ((" x ").data) = (" x ").data ∧
    (("x").data : List Char) ≠ (" x ").data := by
  refine ⟨by rfl, by rfl, by decide⟩

/-- C3 (amended): for every response whose extracted text is not valid
JSON, classify_ticket returns (does not raise) a Failure result carrying
the JSON parse error message and the extraction text exactly as it was
handed to the parser (the stripped extraction). -/
theorem C3_parse_failure_amended (i s d em tr ca text m : List Char)
    (h : jsonParse (extractResponseText text) = .error m) :
    classifyTicket (mkTicket i s d em tr ca) (.ok text) =
      .ok { success := false, ticket_id := i, classification := none,
            error := some (msgParseErr ++ m),
            raw_response := some (extractResponseText text) } := by
  simp [classifyTicket, classifyTicketRun, mkTicket, buildFullPrompt, getKey, h,
    bind, Except.bind, pure, Except.pure]

/-- C3 amended witness: a plain refusal text is not JSON and produces the
Failure with the attempted text preserved. -/
theorem C3_parse_failure_amended_witness :
    classifyTicket
        (mkTicket (("T4").data) (("s").data) (("d").data) (("e@x.io").data)
          (("pro").data) (("2025-01-01").data))
        (.ok (("Sorry, I cannot help.").data)) =
      .ok { success := false, ticket_id := ("T4").data, classification := none,
            error := some (msgParseErr ++ errExpectingValue),
            raw_response := some (("Sorry, I cannot help.").data) } :=
  C3_parse_failure_amended _ _ _ _ _ _ _ _ (by rfl)

/-- The classification payload the spec documents, with all fields
populated.  The confidence is the exact decimal `confM / 10 ^ confE`. -/
structure Classification where
  category : List Char
  priority : List Char
  should_escalate : Bool
  escalate_to : List Char
  reasoning : List Char
  suggested_tags : List (List Char)
  confM : Int
  confE : Nat

def keyCategory : List Char := ("category").data
def keyPriority : List Char := ("priority").data
def keyShouldEscalate : List Char := ("should_escalate").data
def keyEscalateTo : List Char := ("escalate_to").data
def keyReasoning : List Char := ("reasoning").data
def keySuggestedTags : List Char := ("suggested_tags").data
def keyConfidence : List Char := ("confidence").data

/-- The JSON value of a fully populated classification object. -/
def Classification.toJson (c : Classification) : JsonVal :=
  .jobj [ (keyCategory, .jstr c.category)
        , (keyPriority, .jstr c.priority)
        , (keyShouldEscalate, .jbool c.should_escalate)
        , (keyEscalateTo, .jstr c.escalate_to)
        , (keyReasoning, .jstr c.reasoning)
        , (keySuggestedTags, .jarr (c.suggested_tags.map .jstr))
        , (keyConfidence, .jnum c.confM c.confE) ]

/-- Escape one character as the serializer would. -/
def escChar (c : Char) : List Char :=
  if c = '"' then ['\\', '"']
  else if c = '\\' then ['\\', '\\']
  else if c = '\n' then ['\\', 'n']
  else if c = '\t' then ['\\', 't']
  else if c = '\r' then ['\\', 'r']
  else [c]

def escBody : List Char → List Char
  | [] => []
  | c :: rest => escChar c ++ escBody rest

/-- Serialized JSON string literal. -/
def serStr (s : List Char) : List Char := '"' :: (escBody s ++ ['"'])

def natToDigits (n : Nat) : List Char :=
  (Nat.digits 10 n).reverse.map (fun d => Char.ofNat (48 + d))

def serNat (n : Nat) : List Char :=
  if n = 0 then ['0'] else natToDigits n

def padZeros (k : Nat) (ds : List Char) : List Char :=
  List.replicate (k - ds.length) '0' ++ ds

/-- Serialized decimal body of `n / 10 ^ e` (no sign). -/
def serNumCore (n : Nat) (e : Nat) : List Char :=
  if e = 0 then serNat n
  else
    let ds := padZeros (e + 1) (serNat n)
    ds.take (ds.length - e) ++ '.' :: ds.drop (ds.length - e)

/-- Serialized JSON number for the exact decimal `m / 10 ^ e`. -/
def serNum (m : Int) (e : Nat) : List Char :=
  (if m < 0 then ['-'] else []) ++ serNumCore m.natAbs e

def serBool (b : Bool) : List Char :=
  if b then 't' :: 'r' :: 'u' :: 'e' :: [] else 'f' :: 'a' :: 'l' :: 's' :: 'e' :: []

/-- Serialized array body of string tags, with the ", " separator the
serializer emits. -/
def serTags : List (List Char) → List Char
  | [] => []
  | [t] => serStr t
  | t :: rest => serStr t ++ ',' :: ' ' :: serTags rest

/-- A character a serialized string can carry: printable, or one of the
escaped control characters. -/
def goodChar (c : Char) : Bool :=
  decide (32 ≤ c.toNat) || c == '\n' || c == '\t' || c == '\r'

def goodStr (s : List Char) : Bool := s.all goodChar

/-- One serialized object member: its key, its value text and its value. -/
structure SerEntry where
  key : List Char
  vtxt : List Char
  v : JsonVal

/-- Serialized member list with the ", " and ": " separators. -/
def serEntries : List SerEntry → List Char
  | [] => []
  | [en] => serStr en.key ++ ':' :: ' ' :: en.vtxt
  | en :: rest => serStr en.key ++ ':' :: ' ' :: en.vtxt ++ ',' :: ' ' :: serEntries rest

/-- The seven members the serializer emits for a classification object. -/
def classificationEntries (c : Classification) : List SerEntry :=
  [ ⟨keyCategory, serStr c.category, .jstr c.category⟩
  , ⟨keyPriority, serStr c.priority, .jstr c.priority⟩
  , ⟨keyShouldEscalate, serBool c.should_escalate, .jbool c.should_escalate⟩
  , ⟨keyEscalateTo, serStr c.escalate_to, .jstr c.escalate_to⟩
  , ⟨keyReasoning, serStr c.reasoning, .jstr c.reasoning⟩
  , ⟨keySuggestedTags, '[' :: serTags c.suggested_tags ++ [']'],
      .jarr (c.suggested_tags.map .jstr)⟩
  , ⟨keyConfidence, serNum c.confM c.confE, .jnum c.confM c.confE⟩ ]

/-- Modelled from the spec: "serializing it to JSON" — the JSON text the
external service would emit for a fully populated classification object
(the serializing side of the round-trip lives outside src/). -/
def serClassification (c : Classification) : List Char :=
  '\x7b' :: serEntries (classificationEntries c) ++ ['\x7d']

theorem digitChar_facts : ∀ d, d < 10 →
    ((Char.ofNat (48 + d)).isDigit = true ∧ digitVal (Char.ofNat (48 + d)) = d) := by
  decide

theorem serNat_digits (n : Nat) : ∀ c ∈ serNat n, c.isDigit = true := by
  intro c hc
  unfold serNat at hc
  by_cases h : n = 0
  · simp only [h, if_pos, List.mem_singleton] at hc
    subst hc; decide
  · simp only [h, if_false, natToDigits, List.mem_map, List.mem_reverse] at hc
    obtain ⟨d, hd, rfl⟩ := hc
    exact (digitChar_facts d (Nat.digits_lt_base (by norm_num) hd)).1

theorem serNat_ne_nil (n : Nat) : serNat n ≠ [] := by
  unfold serNat
  by_cases h : n = 0
  · simp [h]
  · simp only [h, if_false, natToDigits]
    intro hnil
    rw [List.map_eq_nil_iff, List.reverse_eq_nil_iff] at hnil
    exact h (Nat.digits_eq_nil_iff_eq_zero.mp hnil)

theorem foldl_digits_eq (l : List Nat) : ∀ a : Nat,
    l.foldl (fun a d => a * 10 + d) a = a * 10 ^ l.length + Nat.ofDigits 10 l.reverse := by
  induction l with
  | nil => intro a; simp [Nat.ofDigits]
  | cons d l ih =>
    intro a
    simp only [List.foldl_cons, List.length_cons, List.reverse_cons]
    rw [ih, Nat.ofDigits_append, Nat.ofDigits_singleton, List.length_reverse]
    ring

theorem digitsToNat_map_digitsOf : ∀ (l : List Nat), (∀ d ∈ l, d < 10) → ∀ a : Nat,
    (l.map (fun d => Char.ofNat (48 + d))).foldl (fun a c => a * 10 + digitVal c) a =
      l.foldl (fun a d => a * 10 + d) a := by
  intro l
  induction l with
  | nil => intro _ a; simp
  | cons d l ih =>
    intro hl a
    simp only [List.map_cons, List.foldl_cons]
    rw [(digitChar_facts d (hl d (List.mem_cons_self ..))).2]
    exact ih (fun x hx => hl x (List.mem_cons_of_mem _ hx)) _

theorem digitsToNat_serNat (n : Nat) : digitsToNat (serNat n) = n := by
  unfold serNat
  by_cases h : n = 0
  · subst h; decide
  · simp only [h, if_false, natToDigits, digitsToNat]
    rw [digitsToNat_map_digitsOf _
      (fun d hd => Nat.digits_lt_base (by norm_num) (List.mem_reverse.mp hd))]
    rw [foldl_digits_eq]
    simp [Nat.ofDigits_digits]

theorem digitsToNat_padZeros (k : Nat) (ds : List Char) :
    digitsToNat (padZeros k ds) = digitsToNat ds := by
  have h0 : digitVal '0' = 0 := by decide
  have haux : ∀ m : Nat,
      (List.replicate m '0').foldl (fun a c => a * 10 + digitVal c) 0 = 0 := by
    intro m
    induction m with
    | zero => rfl
    | succ m ih => simpa [List.replicate_succ, h0] using ih
  unfold padZeros digitsToNat
  rw [List.foldl_append, haux]

def nonDigitHead : List Char → Prop
  | [] => True
  | c :: _ => c.isDigit = false

theorem takeDigits_append : ∀ (ds rest : List Char), (∀ c ∈ ds, c.isDigit = true) →
    nonDigitHead rest → takeDigits (ds ++ rest) = (ds, rest) := by
  intro ds
  induction ds with
  | nil =>
    intro rest _ hrest
    cases rest with
    | nil => rfl
    | cons c r => simp [takeDigits, show c.isDigit = false from hrest]
  | cons c ds ih =>
    intro rest hds hrest
    have hc : c.isDigit = true := hds c (List.mem_cons_self ..)
    simp [takeDigits, hc, ih rest (fun x hx => hds x (List.mem_cons_of_mem _ hx)) hrest]

def delimHead : List Char → Prop
  | [] => True
  | c :: _ => c = ',' ∨ c = '\x7d' ∨ c = ']'

theorem delimHead_nonDigit : ∀ (rest : List Char), delimHead rest → nonDigitHead rest := by
  intro rest h
  cases rest with
  | nil => trivial
  | cons c r =>
    rcases h with rfl | rfl | rfl
    · show (',').isDigit = false
      decide
    · show ('\x7d').isDigit = false
      decide
    · show (']').isDigit = false
      decide

theorem isEmpty_false_of_ne_nil {l : List Char} (h : l ≠ []) : l.isEmpty = false := by
  cases l with
  | nil => exact absurd rfl h
  | cons a t => rfl

theorem head_not_dot (rest : List Char) (hrest : delimHead rest) :
    decide (rest.head? = some '.') = false := by
  rcases rest with _ | ⟨c, r⟩
  · decide
  · rcases show c = ',' ∨ c = '\x7d' ∨ c = ']' from hrest with rfl | rfl | rfl
    · simp +decide
    · simp +decide
    · simp +decide

theorem head_digit_not_minus (X rest : List Char) (hx : X ≠ [])
    (hd : ∀ c ∈ X, c.isDigit = true) :
    decide ((X ++ rest).head? = some '-') = false := by
  cases X with
  | nil => exact absurd rfl hx
  | cons a t =>
    simp only [List.cons_append, List.head?_cons, decide_eq_false_iff_not]
    intro hcon
    rw [Option.some.injEq] at hcon
    have ha := hd a (List.mem_cons_self ..)
    rw [hcon] at ha
    exact absurd ha (by decide)

theorem head_minus (X : List Char) :
    decide (('-' :: X).head? = some '-') = true := by simp

theorem head_dot (X : List Char) :
    decide (('.' :: X).head? = some '.') = true := by simp

theorem parseNum_serNum (m : Int) (e : Nat) (rest : List Char) (hrest : delimHead rest) :
    parseNum (serNum m e ++ rest) = .ok (.jnum m e, rest) := by
  have hndh : nonDigitHead rest := delimHead_nonDigit rest hrest
  have hdot : decide (rest.head? = some '.') = false := head_not_dot rest hrest
  have hne : (serNat m.natAbs).isEmpty = false :=
    isEmpty_false_of_ne_nil (serNat_ne_nil m.natAbs)
  by_cases hme : e = 0
  · subst hme
    have htd : takeDigits (serNat m.natAbs ++ rest) = (serNat m.natAbs, rest) :=
      takeDigits_append _ _ (serNat_digits m.natAbs) hndh
    by_cases hm : m < 0
    · have hsign : -((m.natAbs : Nat) : Int) = m := by omega
      have hser : serNum m 0 ++ rest = '-' :: (serNat m.natAbs ++ rest) := by
        simp [serNum, serNumCore, hm]
      rw [hser]
      unfold parseNum
      simp only [head_minus, List.drop_succ_cons, List.drop_zero, htd, hne, hdot,
        Bool.false_eq_true, if_false, ite_false, if_true, ite_true]
      rw [digitsToNat_serNat, hsign]
    · have hsign : ((m.natAbs : Nat) : Int) = m := by omega
      have hnegf : decide ((serNat m.natAbs ++ rest).head? = some '-') = false :=
        head_digit_not_minus _ _ (serNat_ne_nil m.natAbs) (serNat_digits m.natAbs)
      have hser : serNum m 0 ++ rest = serNat m.natAbs ++ rest := by
        simp [serNum, serNumCore, hm]
      rw [hser]
      unfold parseNum
      simp only [hnegf, htd, hne, hdot, Bool.false_eq_true, if_false, ite_false,
        if_true, ite_true]
      rw [digitsToNat_serNat, hsign]
  · have hLb : e + 1 ≤ (padZeros (e + 1) (serNat m.natAbs)).length := by
      unfold padZeros
      simp only [List.length_append, List.length_replicate]
      omega
    have hdsd : ∀ c ∈ padZeros (e + 1) (serNat m.natAbs), c.isDigit = true := by
      intro c hc
      unfold padZeros at hc
      rcases List.mem_append.mp hc with hc | hc
      · rw [List.eq_of_mem_replicate hc]; decide
      · exact serNat_digits m.natAbs c hc
    have htk : ∀ c ∈ (padZeros (e + 1) (serNat m.natAbs)).take
        ((padZeros (e + 1) (serNat m.natAbs)).length - e), c.isDigit = true :=
      fun c hc => hdsd c (List.mem_of_mem_take hc)
    have hdp : ∀ c ∈ (padZeros (e + 1) (serNat m.natAbs)).drop
        ((padZeros (e + 1) (serNat m.natAbs)).length - e), c.isDigit = true :=
      fun c hc => hdsd c (List.mem_of_mem_drop hc)
    have htklen : ((padZeros (e + 1) (serNat m.natAbs)).take
        ((padZeros (e + 1) (serNat m.natAbs)).length - e)).length =
        (padZeros (e + 1) (serNat m.natAbs)).length - e := by
      simp only [List.length_take]
      omega
    have hdplen : ((padZeros (e + 1) (serNat m.natAbs)).drop
        ((padZeros (e + 1) (serNat m.natAbs)).length - e)).length = e := by
      simp only [List.length_drop]
      omega
    have htkne2 : (padZeros (e + 1) (serNat m.natAbs)).take
        ((padZeros (e + 1) (serNat m.natAbs)).length - e) ≠ [] := by
      intro hnil
      rw [hnil] at htklen
      simp only [List.length_nil] at htklen
      omega
    have hdpne2 : (padZeros (e + 1) (serNat m.natAbs)).drop
        ((padZeros (e + 1) (serNat m.natAbs)).length - e) ≠ [] := by
      intro hnil
      rw [hnil] at hdplen
      simp only [List.length_nil] at hdplen
      omega
    have htkne : ((padZeros (e + 1) (serNat m.natAbs)).take
        ((padZeros (e + 1) (serNat m.natAbs)).length - e)).isEmpty = false :=
      isEmpty_false_of_ne_nil htkne2
    have hdpne : ((padZeros (e + 1) (serNat m.natAbs)).drop
        ((padZeros (e + 1) (serNat m.natAbs)).length - e)).isEmpty = false :=
      isEmpty_false_of_ne_nil hdpne2
    have htd1 : takeDigits ((padZeros (e + 1) (serNat m.natAbs)).take
        ((padZeros (e + 1) (serNat m.natAbs)).length - e) ++
        ('.' :: ((padZeros (e + 1) (serNat m.natAbs)).drop
          ((padZeros (e + 1) (serNat m.natAbs)).length - e) ++ rest))) =
        ((padZeros (e + 1) (serNat m.natAbs)).take
          ((padZeros (e + 1) (serNat m.natAbs)).length - e),
         '.' :: ((padZeros (e + 1) (serNat m.natAbs)).drop
          ((padZeros (e + 1) (serNat m.natAbs)).length - e) ++ rest)) :=
      takeDigits_append _ _ htk (by show ('.').isDigit = false; decide)
    have htd2 : takeDigits ((padZeros (e + 1) (serNat m.natAbs)).drop
        ((padZeros (e + 1) (serNat m.natAbs)).length - e) ++ rest) =
        ((padZeros (e + 1) (serNat m.natAbs)).drop
          ((padZeros (e + 1) (serNat m.natAbs)).length - e), rest) :=
      takeDigits_append _ _ hdp hndh
    have hval : digitsToNat ((padZeros (e + 1) (serNat m.natAbs)).take
        ((padZeros (e + 1) (serNat m.natAbs)).length - e) ++
        (padZeros (e + 1) (serNat m.natAbs)).drop
        ((padZeros (e + 1) (serNat m.natAbs)).length - e)) = m.natAbs := by
      rw [List.take_append_drop, digitsToNat_padZeros, digitsToNat_serNat]
    by_cases hm : m < 0
    · have hsign : -((m.natAbs : Nat) : Int) = m := by omega
      have hser : serNum m e ++ rest =
          '-' :: ((padZeros (e + 1) (serNat m.natAbs)).take
            ((padZeros (e + 1) (serNat m.natAbs)).length - e) ++
            ('.' :: ((padZeros (e + 1) (serNat m.natAbs)).drop
              ((padZeros (e + 1) (serNat m.natAbs)).length - e) ++ rest))) := by
        simp [serNum, serNumCore, hm, hme, List.append_assoc]
      rw [hser]
      unfold parseNum
      simp only [head_minus, List.drop_succ_cons, List.drop_zero, htd1, htkne,
        head_dot, htd2, hdpne, Bool.false_eq_true, if_false, ite_false,
        if_true, ite_true]
      rw [hval, hdplen, hsign]
    · have hsign : ((m.natAbs : Nat) : Int) = m := by omega
      have hnegf : decide (((padZeros (e + 1) (serNat m.natAbs)).take
          ((padZeros (e + 1) (serNat m.natAbs)).length - e) ++
          ('.' :: ((padZeros (e + 1) (serNat m.natAbs)).drop
            ((padZeros (e + 1) (serNat m.natAbs)).length - e) ++ rest))).head? =
            some '-') = false :=
        head_digit_not_minus _ _ htkne2 htk
      have hser : serNum m e ++ rest =
          (padZeros (e + 1) (serNat m.natAbs)).take
            ((padZeros (e + 1) (serNat m.natAbs)).length - e) ++
            ('.' :: ((padZeros (e + 1) (serNat m.natAbs)).drop
              ((padZeros (e + 1) (serNat m.natAbs)).length - e) ++ rest)) := by
        simp [serNum, serNumCore, hm, hme, List.append_assoc]
      rw [hser]
      unfold parseNum
      simp only [hnegf, htd1, htkne, head_dot, List.drop_succ_cons, List.drop_zero,
        htd2, hdpne, Bool.false_eq_true, if_false, ite_false, if_true, ite_true]
      rw [hval, hdplen, hsign]

theorem parseStrBody_escBody : ∀ (s rest : List Char), (∀ c ∈ s, goodChar c = true) →
    parseStrBody (escBody s ++ '"' :: rest) = .ok (s, rest) := by
  intro s
  induction s with
  | nil =>
    intro rest _
    rw [show escBody [] ++ '"' :: rest = '"' :: rest from rfl]
    rw [parseStrBody.eq_def]
    simp +decide
  | cons c s ih =>
    intro rest hgood
    have hc : goodChar c = true := hgood c (List.mem_cons_self ..)
    have hs : ∀ x ∈ s, goodChar x = true := fun x hx => hgood x (List.mem_cons_of_mem _ hx)
    by_cases h1 : c = '"'
    · subst h1
      rw [show escBody ('"' :: s) ++ '"' :: rest =
          '\\' :: '"' :: (escBody s ++ '"' :: rest) from by simp +decide [escBody, escChar]]
      rw [parseStrBody.eq_def]
      simp +decide [unescapeChar, escPairs, List.find?, ih rest hs]
    · by_cases h2 : c = '\\'
      · subst h2
        rw [show escBody ('\\' :: s) ++ '"' :: rest =
            '\\' :: '\\' :: (escBody s ++ '"' :: rest) from by simp +decide [escBody, escChar]]
        rw [parseStrBody.eq_def]
        simp +decide [unescapeChar, escPairs, List.find?, ih rest hs]
      · by_cases h3 : c = '\n'
        · subst h3
          rw [show escBody ('\n' :: s) ++ '"' :: rest =
              '\\' :: 'n' :: (escBody s ++ '"' :: rest) from by simp +decide [escBody, escChar]]
          rw [parseStrBody.eq_def]
          simp +decide [unescapeChar, escPairs, List.find?, ih rest hs]
        · by_cases h4 : c = '\t'
          · subst h4
            rw [show escBody ('\t' :: s) ++ '"' :: rest =
                '\\' :: 't' :: (escBody s ++ '"' :: rest) from by simp +decide [escBody, escChar]]
            rw [parseStrBody.eq_def]
            simp +decide [unescapeChar, escPairs, List.find?, ih rest hs]
          · by_cases h5 : c = '\r'
            · subst h5
              rw [show escBody ('\r' :: s) ++ '"' :: rest =
                  '\\' :: 'r' :: (escBody s ++ '"' :: rest) from by simp +decide [escBody, escChar]]
              rw [parseStrBody.eq_def]
              simp +decide [unescapeChar, escPairs, List.find?, ih rest hs]
            · have hb1 : (c == '"') = false := beq_eq_false_iff_ne.mpr h1
              have hb2 : (c == '\\') = false := beq_eq_false_iff_ne.mpr h2
              have h32 : ¬ c.toNat < 32 := by
                simp only [goodChar, Bool.or_eq_true, decide_eq_true_eq,
                  beq_iff_eq] at hc
                rcases hc with ((h | h) | h) | h
                · omega
                · exact absurd h h3
                · exact absurd h h4
                · exact absurd h h5
              rw [show escBody (c :: s) ++ '"' :: rest =
                  c :: (escBody s ++ '"' :: rest) from by
                simp [escBody, escChar, if_neg h1, if_neg h2, if_neg h3, if_neg h4,
                  if_neg h5]]
              rw [parseStrBody.eq_def]
              simp only [hb1, hb2, Bool.false_eq_true, if_false, ite_false,
                if_neg h32, ih rest hs]

theorem serStr_append (s rest : List Char) :
    serStr s ++ rest = '"' :: (escBody s ++ '"' :: rest) := by
  simp [serStr, List.append_assoc]

theorem parseVal_serStr (s : List Char) (hs : goodStr s = true) (fuel : Nat)
    (rest : List Char) :
    parseVal (fuel + 1) (serStr s ++ rest) = .ok (.jstr s, rest) := by
  have hh : ∀ c ∈ s, goodChar c = true := by
    simpa [goodStr, List.all_eq_true] using hs
  rw [serStr_append]
  simp +decide [parseVal, skipWs, parseStrBody_escBody s rest hh]

theorem stripLit_self (lit rest : List Char) : stripLit lit (lit ++ rest) = some rest := by
  have h : lit.isPrefixOf (lit ++ rest) = true :=
    List.isPrefixOf_iff_prefix.mpr ⟨rest, rfl⟩
  simp [stripLit, h, List.drop_left]

theorem parseVal_serBool (b : Bool) (fuel : Nat) (rest : List Char) :
    parseVal (fuel + 1) (serBool b ++ rest) = .ok (.jbool b, rest) := by
  cases b
  · have hsb : serBool false ++ rest = 'f' :: (litAlse ++ rest) := by
      have hlit : litAlse = 'a' :: 'l' :: 's' :: 'e' :: [] := by decide
      rw [hlit]
      rfl
    rw [hsb]
    simp +decide [parseVal, skipWs, stripLit_self]
  · have hsb : serBool true ++ rest = 't' :: (litRue ++ rest) := by
      have hlit : litRue = 'r' :: 'u' :: 'e' :: [] := by decide
      rw [hlit]
      rfl
    rw [hsb]
    simp +decide [parseVal, skipWs, stripLit_self]

theorem jsonWs_false_of_digit (c : Char) (h : c.isDigit = true) : jsonWs c = false := by
  cases hw : jsonWs c
  · rfl
  · exfalso
    simp only [jsonWs, Bool.or_eq_true, beq_iff_eq] at hw
    rcases hw with ((rfl | rfl) | rfl) | rfl
    · exact absurd h (by decide)
    · exact absurd h (by decide)
    · exact absurd h (by decide)
    · exact absurd h (by decide)

theorem beq_false_of_digit (c d : Char) (h : c.isDigit = true)
    (hd : d.isDigit = false) : (c == d) = false := by
  refine beq_eq_false_iff_ne.mpr ?_
  intro hEq
  subst hEq
  exact absurd (h.symm.trans hd) (by decide)

theorem serNumCore_head (n e : Nat) :
    ∃ c t, serNumCore n e = c :: t ∧ c.isDigit = true := by
  by_cases hme : e = 0
  · subst hme
    cases hsn : serNat n with
    | nil => exact absurd hsn (serNat_ne_nil n)
    | cons a t =>
      refine ⟨a, t, by simp [serNumCore, hsn], ?_⟩
      exact serNat_digits n a (by rw [hsn]; exact List.mem_cons_self ..)
  · have hLb : e + 1 ≤ (padZeros (e + 1) (serNat n)).length := by
      unfold padZeros
      simp only [List.length_append, List.length_replicate]
      omega
    have htklen : ((padZeros (e + 1) (serNat n)).take
        ((padZeros (e + 1) (serNat n)).length - e)).length =
        (padZeros (e + 1) (serNat n)).length - e := by
      simp only [List.length_take]
      omega
    cases htk : (padZeros (e + 1) (serNat n)).take
        ((padZeros (e + 1) (serNat n)).length - e) with
    | nil =>
      rw [htk] at htklen
      simp only [List.length_nil] at htklen
      omega
    | cons a t =>
      refine ⟨a, t ++ '.' :: (padZeros (e + 1) (serNat n)).drop
        ((padZeros (e + 1) (serNat n)).length - e), ?_, ?_⟩
      · simp [serNumCore, hme, htk]
      · have hmem : a ∈ padZeros (e + 1) (serNat n) := by
          have hmt : a ∈ List.take ((padZeros (e + 1) (serNat n)).length - e)
              (padZeros (e + 1) (serNat n)) := by
            rw [htk]
            exact List.mem_cons_self ..
          exact List.mem_of_mem_take hmt
        unfold padZeros at hmem
        rcases List.mem_append.mp hmem with hmem | hmem
        · rw [List.eq_of_mem_replicate hmem]; decide
        · exact serNat_digits n a hmem

theorem parseVal_serNum (m : Int) (e : Nat) (fuel : Nat) (rest : List Char)
    (hrest : delimHead rest) :
    parseVal (fuel + 1) (serNum m e ++ rest) = .ok (.jnum m e, rest) := by
  by_cases hm : m < 0
  · have hser : serNum m e ++ rest = '-' :: (serNumCore m.natAbs e ++ rest) := by
      simp [serNum, hm]
    rw [hser]
    have hred : parseVal (fuel + 1) ('-' :: (serNumCore m.natAbs e ++ rest)) =
        parseNum ('-' :: (serNumCore m.natAbs e ++ rest)) := rfl
    rw [hred, ← hser]
    exact parseNum_serNum m e rest hrest
  · obtain ⟨c, t, hct, hcd⟩ := serNumCore_head m.natAbs e
    have hser : serNum m e ++ rest = c :: (t ++ rest) := by
      simp [serNum, hm, hct]
    rw [hser]
    have hws := jsonWs_false_of_digit c hcd
    have hsk : skipWs (c :: (t ++ rest)) = c :: (t ++ rest) := by
      simp [skipWs, hws]
    have hb1 := beq_false_of_digit c '"' hcd (by decide)
    have hb2 := beq_false_of_digit c '[' hcd (by decide)
    have hb3 := beq_false_of_digit c '\x7b' hcd (by decide)
    have hb4 := beq_false_of_digit c 't' hcd (by decide)
    have hb5 := beq_false_of_digit c 'f' hcd (by decide)
    have hb6 := beq_false_of_digit c 'n' hcd (by decide)
    simp only [parseVal, hsk, hb1, hb2, hb3, hb4, hb5, hb6, hcd,
      Bool.or_true, Bool.false_eq_true, if_false, ite_false, if_true, ite_true]
    rw [show (c :: (t ++ rest)) = serNum m e ++ rest from hser.symm]
    exact parseNum_serNum m e rest hrest

theorem skipWs_space (s : List Char) : skipWs (' ' :: s) = skipWs s := by
  simp +decide [skipWs]

theorem parseVal_ws (fuel : Nat) (s : List Char) :
    parseVal fuel (' ' :: s) = parseVal fuel s := by
  cases fuel with
  | zero => rfl
  | succ f => simp only [parseVal, skipWs_space]

theorem parseElems_ws (fuel : Nat) (s : List Char) :
    parseElems fuel (' ' :: s) = parseElems fuel s := by
  cases fuel with
  | zero => rfl
  | succ f => simp only [parseElems, parseVal_ws]

theorem parseMembers_ws (fuel : Nat) (s : List Char) :
    parseMembers fuel (' ' :: s) = parseMembers fuel s := by
  cases fuel with
  | zero => rfl
  | succ f => simp only [parseMembers, skipWs_space]

theorem parseElems_step (fuel : Nat) (s : List Char) :
    parseElems (fuel + 1) s =
      (match parseVal fuel s with
       | .error m => .error m
       | .ok (v, r1) =>
         match skipWs r1 with
         | ',' :: r2 =>
           match parseElems fuel r2 with
           | .ok (xs, r3) => .ok (v :: xs, r3)
           | .error m => .error m
         | ']' :: r2 => .ok ([v], r2)
         | _ => .error errExpectingDelim) := rfl

theorem parseMembers_step (fuel : Nat) (s : List Char) :
    parseMembers (fuel + 1) s =
      (match skipWs s with
       | '"' :: rest =>
         match parseStrBody rest with
         | .error m => .error m
         | .ok (key, r1) =>
           match skipWs r1 with
           | ':' :: r2 =>
             match parseVal fuel r2 with
             | .error m => .error m
             | .ok (v, r3) =>
               match skipWs r3 with
               | ',' :: r4 =>
                 match parseMembers fuel r4 with
                 | .ok (ms, r5) => .ok ((key, v) :: ms, r5)
                 | .error m => .error m
               | '\x7d' :: r4 => .ok ([(key, v)], r4)
               | _ => .error errExpectingDelim
           | _ => .error errExpectingColon
       | _ => .error errExpectingKey) := rfl

theorem parseElems_serTags :
    ∀ (tags : List (List Char)), tags ≠ [] →
      (∀ t ∈ tags, goodStr t = true) →
      ∀ (f : Nat) (rest : List Char), tags.length ≤ f + 1 →
        parseElems (f + 1 + 1) (serTags tags ++ ']' :: rest) =
          .ok (tags.map JsonVal.jstr, rest) := by
  intro tags
  induction tags with
  | nil => intro h; exact absurd rfl h
  | cons t ts ih =>
    intro _ hgood f rest hf
    have hgt : goodStr t = true := hgood t (List.mem_cons_self ..)
    cases ts with
    | nil =>
      rw [show serTags [t] ++ ']' :: rest = serStr t ++ ']' :: rest from by
        simp [serTags]]
      rw [parseElems_step, parseVal_serStr t hgt f (']' :: rest)]
      simp +decide [skipWs]
    | cons a ts' =>
      rw [show serTags (t :: a :: ts') ++ ']' :: rest =
          serStr t ++ ',' :: ' ' :: (serTags (a :: ts') ++ ']' :: rest) from by
        simp [serTags]]
      have hlen : (a :: ts').length ≤ f := by
        simp only [List.length_cons] at hf ⊢
        omega
      have hrec : parseElems (f + 1) (' ' :: (serTags (a :: ts') ++ ']' :: rest)) =
          .ok ((a :: ts').map JsonVal.jstr, rest) := by
        rw [parseElems_ws]
        cases f with
        | zero => simp at hlen
        | succ g =>
          exact ih (by simp) (fun x hx => hgood x (List.mem_cons_of_mem _ hx)) g rest
            (by simpa using hlen)
      rw [parseElems_step, parseVal_serStr t hgt f
        (',' :: ' ' :: (serTags (a :: ts') ++ ']' :: rest))]
      simp +decide [skipWs, hrec]

theorem parseVal_serTagsArr (tags : List (List Char))
    (hgood : ∀ t ∈ tags, goodStr t = true) (fuel : Nat) (rest : List Char)
    (hf : tags.length + 1 ≤ fuel) :
    parseVal (fuel + 1) (('[' :: serTags tags ++ [']']) ++ rest) =
      .ok (.jarr (tags.map JsonVal.jstr), rest) := by
  cases tags with
  | nil =>
    rw [show (('[' :: serTags [] ++ [']']) ++ rest) = '[' :: ']' :: rest from by
      simp [serTags]]
    simp +decide [parseVal, skipWs]
  | cons t ts =>
    rw [show (('[' :: serTags (t :: ts) ++ [']']) ++ rest) =
        '[' :: (serTags (t :: ts) ++ ']' :: rest) from by simp]
    obtain ⟨Y, hY⟩ : ∃ Y, serTags (t :: ts) ++ ']' :: rest = '"' :: Y := by
      cases ts with
      | nil =>
        exact ⟨escBody t ++ '"' :: ']' :: rest, by
          simp [serTags, serStr, List.append_assoc]⟩
      | cons a ts' =>
        exact ⟨escBody t ++ '"' :: ',' :: ' ' :: (serTags (a :: ts') ++ ']' :: rest), by
          simp [serTags, serStr, List.append_assoc]⟩
    cases fuel with
    | zero => simp at hf
    | succ f =>
      cases f with
      | zero =>
        simp only [List.length_cons] at hf
        omega
      | succ g =>
        have helems := parseElems_serTags (t :: ts) (by simp) hgood g rest
          (by simp only [List.length_cons] at hf ⊢; omega)
        simp only [parseVal]
        rw [show skipWs ('[' :: (serTags (t :: ts) ++ ']' :: rest)) =
            '[' :: (serTags (t :: ts) ++ ']' :: rest) from by simp +decide [skipWs]]
        simp +decide only []
        rw [hY] at helems ⊢
        rw [show skipWs ('"' :: Y) = '"' :: Y from by simp +decide [skipWs]]
        simp +decide [helems]

theorem parseMembers_serEntries (N : Nat) :
    ∀ (l : List SerEntry), l ≠ [] →
      (∀ en ∈ l, goodStr en.key = true) →
      (∀ en ∈ l, ∀ (f : Nat) (rest : List Char), N ≤ f → delimHead rest →
        parseVal (f + 1) (en.vtxt ++ rest) = .ok (en.v, rest)) →
      ∀ (f : Nat) (rest : List Char), N + l.length ≤ f + 1 →
        parseMembers (f + 1 + 1) (serEntries l ++ '\x7d' :: rest) =
          .ok (l.map (fun en => (en.key, en.v)), rest) := by
  intro l
  induction l with
  | nil => intro h; exact absurd rfl h
  | cons en l' ih =>
    intro _ hkeys hvals f rest hf
    have hgk : goodStr en.key = true := hkeys en (List.mem_cons_self ..)
    have hgkm : ∀ c ∈ en.key, goodChar c = true := by
      simpa [goodStr, List.all_eq_true] using hgk
    cases l' with
    | nil =>
      rw [show serEntries [en] ++ '\x7d' :: rest =
          '"' :: (escBody en.key ++ '"' ::
            (':' :: ' ' :: (en.vtxt ++ '\x7d' :: rest))) from by
        simp [serEntries, serStr, List.append_assoc]]
      have hkey := parseStrBody_escBody en.key
        (':' :: ' ' :: (en.vtxt ++ '\x7d' :: rest)) hgkm
      have hv : parseVal (f + 1) (' ' :: (en.vtxt ++ '\x7d' :: rest)) =
          .ok (en.v, '\x7d' :: rest) := by
        rw [parseVal_ws]
        refine hvals en (List.mem_cons_self ..) f ('\x7d' :: rest) ?_ ?_
        · simp only [List.length_cons, List.length_nil] at hf
          omega
        · exact Or.inr (Or.inl rfl)
      rw [parseMembers_step]
      simp +decide [skipWs, hkey, hv]
    | cons b l'' =>
      rw [show serEntries (en :: b :: l'') ++ '\x7d' :: rest =
          '"' :: (escBody en.key ++ '"' ::
            (':' :: ' ' :: (en.vtxt ++ ',' :: ' ' ::
              (serEntries (b :: l'') ++ '\x7d' :: rest)))) from by
        simp [serEntries, serStr, List.append_assoc]]
      have hkey := parseStrBody_escBody en.key
        (':' :: ' ' :: (en.vtxt ++ ',' :: ' ' ::
          (serEntries (b :: l'') ++ '\x7d' :: rest))) hgkm
      have hv : parseVal (f + 1) (' ' :: (en.vtxt ++ ',' :: ' ' ::
          (serEntries (b :: l'') ++ '\x7d' :: rest))) =
          .ok (en.v, ',' :: ' ' :: (serEntries (b :: l'') ++ '\x7d' :: rest)) := by
        rw [parseVal_ws]
        refine hvals en (List.mem_cons_self ..) f
          (',' :: ' ' :: (serEntries (b :: l'') ++ '\x7d' :: rest)) ?_ ?_
        · simp only [List.length_cons] at hf
          omega
        · exact Or.inl rfl
      have hrec : parseMembers (f + 1) (' ' ::
          (serEntries (b :: l'') ++ '\x7d' :: rest)) =
          .ok ((b :: l'').map (fun x => (x.key, x.v)), rest) := by
        rw [parseMembers_ws]
        cases f with
        | zero =>
          simp only [List.length_cons] at hf
          omega
        | succ f' =>
          refine ih (by simp) (fun x hx => hkeys x (List.mem_cons_of_mem _ hx))
            (fun x hx => hvals x (List.mem_cons_of_mem _ hx)) f' rest ?_
          simp only [List.length_cons] at hf ⊢
          omega
      rw [parseMembers_step]
      simp +decide [skipWs, hkey, hv, hrec]

theorem parseVal_serObj (N : Nat) (l : List SerEntry) (hne : l ≠ [])
    (hkeys : ∀ en ∈ l, goodStr en.key = true)
    (hvals : ∀ en ∈ l, ∀ (f : Nat) (rest : List Char), N ≤ f → delimHead rest →
      parseVal (f + 1) (en.vtxt ++ rest) = .ok (en.v, rest))
    (f : Nat) (rest : List Char) (hf : N + l.length + 1 ≤ f) :
    parseVal (f + 1) (('\x7b' :: serEntries l ++ ['\x7d']) ++ rest) =
      .ok (.jobj (l.map (fun en => (en.key, en.v))), rest) := by
  rw [show (('\x7b' :: serEntries l ++ ['\x7d']) ++ rest) =
      '\x7b' :: (serEntries l ++ '\x7d' :: rest) from by simp]
  obtain ⟨en, l', rfl⟩ : ∃ en l', l = en :: l' := by
    cases l with
    | nil => exact absurd rfl hne
    | cons en l' => exact ⟨en, l', rfl⟩
  obtain ⟨Y, hY⟩ : ∃ Y, serEntries (en :: l') ++ '\x7d' :: rest = '"' :: Y := by
    cases l' with
    | nil =>
      exact ⟨escBody en.key ++ '"' :: (':' :: ' ' :: (en.vtxt ++ '\x7d' :: rest)), by
        simp [serEntries, serStr, List.append_assoc]⟩
    | cons b l'' =>
      exact ⟨escBody en.key ++ '"' :: (':' :: ' ' :: (en.vtxt ++ ',' :: ' ' ::
          (serEntries (b :: l'') ++ '\x7d' :: rest))), by
        simp [serEntries, serStr, List.append_assoc]⟩
  cases f with
  | zero => omega
  | succ g =>
    cases g with
    | zero =>
      simp only [List.length_cons] at hf
      omega
    | succ g' =>
      have hmem := parseMembers_serEntries N (en :: l') (by simp) hkeys hvals g' rest
        (by simp only [List.length_cons] at hf ⊢; omega)
      simp only [parseVal]
      rw [show skipWs ('\x7b' :: (serEntries (en :: l') ++ '\x7d' :: rest)) =
          '\x7b' :: (serEntries (en :: l') ++ '\x7d' :: rest) from by
        simp +decide [skipWs]]
      simp +decide only []
      rw [hY] at hmem ⊢
      rw [show skipWs ('"' :: Y) = '"' :: Y from by simp +decide [skipWs]]
      simp +decide [hmem]

theorem classificationEntries_keys (c : Classification) :
    ∀ en ∈ classificationEntries c, goodStr en.key = true := by
  intro en hen
  simp only [classificationEntries, List.mem_cons, List.not_mem_nil, or_false] at hen
  rcases hen with rfl | rfl | rfl | rfl | rfl | rfl | rfl <;> (dsimp only; decide)

theorem classificationEntries_vals (c : Classification)
    (h1 : goodStr c.category = true) (h2 : goodStr c.priority = true)
    (h3 : goodStr c.escalate_to = true) (h4 : goodStr c.reasoning = true)
    (h5 : ∀ t ∈ c.suggested_tags, goodStr t = true) :
    ∀ en ∈ classificationEntries c, ∀ (f : Nat) (rest : List Char),
      c.suggested_tags.length + 1 ≤ f → delimHead rest →
        parseVal (f + 1) (en.vtxt ++ rest) = .ok (en.v, rest) := by
  intro en hen f rest hf hrest
  simp only [classificationEntries, List.mem_cons, List.not_mem_nil, or_false] at hen
  rcases hen with rfl | rfl | rfl | rfl | rfl | rfl | rfl
  · exact parseVal_serStr _ h1 f rest
  · exact parseVal_serStr _ h2 f rest
  · exact parseVal_serBool _ f rest
  · exact parseVal_serStr _ h3 f rest
  · exact parseVal_serStr _ h4 f rest
  · exact parseVal_serTagsArr _ h5 f rest hf
  · exact parseNum_serNum _ _ rest hrest ▸ parseVal_serNum _ _ f rest hrest

theorem serStr_length (s : List Char) : 2 ≤ (serStr s).length := by
  simp only [serStr, List.length_cons, List.length_append, List.length_singleton]
  omega

theorem serTags_length : ∀ (tags : List (List Char)),
    tags.length ≤ (serTags tags).length := by
  intro tags
  induction tags with
  | nil => simp [serTags]
  | cons t ts ih =>
    cases ts with
    | nil =>
      have := serStr_length t
      simp only [serTags, List.length_cons, List.length_nil]
      omega
    | cons a ts' =>
      have := serStr_length t
      simp only [serTags, List.length_append, List.length_cons] at ih ⊢
      omega

theorem serClassification_length (c : Classification) :
    c.suggested_tags.length + 8 ≤ (serClassification c).length := by
  have ht := serTags_length c.suggested_tags
  have e1 := serStr_length keyCategory
  have e2 := serStr_length keyPriority
  have e3 := serStr_length keyShouldEscalate
  have e4 := serStr_length keyEscalateTo
  have e5 := serStr_length keyReasoning
  have e6 := serStr_length keySuggestedTags
  have e7 := serStr_length keyConfidence
  simp only [serClassification, classificationEntries, serEntries,
    List.length_cons, List.length_append, List.length_singleton]
  omega

theorem jsonParse_serClassification (c : Classification)
    (h1 : goodStr c.category = true) (h2 : goodStr c.priority = true)
    (h3 : goodStr c.escalate_to = true) (h4 : goodStr c.reasoning = true)
    (h5 : ∀ t ∈ c.suggested_tags, goodStr t = true) :
    jsonParse (serClassification c) = .ok c.toJson := by
  have hlen := serClassification_length c
  have hmaster := parseVal_serObj (c.suggested_tags.length + 1)
    (classificationEntries c) (by simp [classificationEntries])
    (classificationEntries_keys c)
    (classificationEntries_vals c h1 h2 h3 h4 h5)
    (2 * (serClassification c).length + 1) []
    (by simp only [classificationEntries, List.length_cons, List.length_nil]; omega)
  have hser : serClassification c =
      ('\x7b' :: serEntries (classificationEntries c) ++ ['\x7d']) ++ [] := by
    simp [serClassification]
  have hp : parseVal (2 * (serClassification c).length + 2) (serClassification c) =
      .ok (.jobj ((classificationEntries c).map fun en => (en.key, en.v)), []) := by
    nth_rewrite 2 [hser]
    exact hmaster
  unfold jsonParse
  rw [hp]
  simp [Classification.toJson, classificationEntries, skipWs]

/-- C8: serializing a fully populated classification object to JSON text
(as the external service would emit it) and parsing that text back through
the contract's JSON decode reproduces the same field values verbatim — the
decode performs no transformation.  The string fields may hold any
characters a JSON string can carry (printable text and the escaped control
characters). -/
theorem C8_serialize_parse_roundtrip (c : Classification)
    (h1 : goodStr c.category = true) (h2 : goodStr c.priority = true)
    (h3 : goodStr c.escalate_to = true) (h4 : goodStr c.reasoning = true)
    (h5 : ∀ t ∈ c.suggested_tags, goodStr t = true) :
    jsonParse (serClassification c) =
      .ok (.jobj [ (keyCategory, .jstr c.category)
                 , (keyPriority, .jstr c.priority)
                 , (keyShouldEscalate, .jbool c.should_escalate)
                 , (keyEscalateTo, .jstr c.escalate_to)
                 , (keyReasoning, .jstr c.reasoning)
                 , (keySuggestedTags, .jarr (c.suggested_tags.map .jstr))
                 , (keyConfidence, .jnum c.confM c.confE) ]) :=
  jsonParse_serClassification c h1 h2 h3 h4 h5

/-- A concrete fully populated classification object. -/
def sampleClassification : Classification :=
  { category := ("TECHNICAL").data
  , priority := ("HIGH").data
  , should_escalate := true
  , escalate_to := ("ENGINEERING").data
  , reasoning := ("Data loss reported by an enterprise customer").data
  , suggested_tags := [("data-loss").data, ("urgent").data]
  , confM := 95
  , confE := 2 }

/-- C8 witness: the round-trip at a concrete classification object with
confidence 0.95. -/
theorem C8_serialize_parse_roundtrip_witness :
    jsonParse (serClassification sampleClassification) =
      .ok (.jobj [ (keyCategory, .jstr (("TECHNICAL").data))
                 , (keyPriority, .jstr (("HIGH").data))
                 , (keyShouldEscalate, .jbool true)
                 , (keyEscalateTo, .jstr (("ENGINEERING").data))
                 , (keyReasoning,
                     .jstr (("Data loss reported by an enterprise customer").data))
                 , (keySuggestedTags,
                     .jarr [.jstr (("data-loss").data), .jstr (("urgent").data)])
                 , (keyConfidence, .jnum 95 2) ]) :=
  C8_serialize_parse_roundtrip sampleClassification (by decide) (by decide)
    (by decide) (by decide) (by decide)

end CsAgent
